import Mathlib

/-!
Verification development for the slidy-cli solver cache (`src/state.rs`) and
move-sequence optimizer (`src/run.rs`).

The solver cache is embedded operationally: `dispatch` is the `match (w, h)`
dispatch of `State::solve`, `stateSolve` is `State::solve` itself with the
file system, the `OnceCell` cache and the performed side effects made
explicit.  The optimizer `Runner::optimize` is embedded as `optimizeLoop` /
`optimize` over an abstract interface (`AlgOps`, `SolverOps`) standing for
the external `slidy` library, whose contract (slicing, concatenation,
inversion, optimal solving) is captured by the `OptLaws` hypothesis
structure and instantiated by an executable concrete model further below.
-/

namespace SlidyCli

/-- The `Metric` enum of `src/enums.rs`: single-tile-move or multi-tile-move
counting. -/
inductive Metric where
  | stm
  | mtm
deriving DecidableEq, Repr

/-- The `LabelType` enum of `src/enums.rs`. -/
inductive LabelType where
  | trivial
  | rowGrids
  | rows
  | fringe
  | squareFringe
  | splitFringe
  | splitSquareFringe
  | diagonals
  | checkerboard
  | grids
deriving DecidableEq, Repr

/-- The sixteen `OnceCell` solver fields of `struct State` in
`src/state.rs`, one per (normalized configuration, metric) pair. -/
inductive Slot where
  | s2x2stm
  | s3x2stm
  | s3x3stm
  | s4x2stm
  | s4x3stm
  | s4x4stm
  | s5x2stm
  | s6x2stm
  | s2x2mtm
  | s3x2mtm
  | s3x3mtm
  | s4x2mtm
  | s4x3mtm
  | s4x4mtm
  | s5x2mtm
  | s6x2mtm
deriving DecidableEq, Repr

/-- The solving strategy `State::solve` selects for a `(width, height,
metric)` triple: a pdb-file-backed cached solver (the `solve!` macro arms),
the non-persistent cached `Solver4x4Stm`, the pdb-file-backed cached
`Solver4x4Mtm`, a fresh uncached `ManhattanDistance` solver (the STM
fallback arm), or the `todo!` panic (the MTM fallback arm). -/
inductive Strategy where
  | pdbSolver (slot : Slot) (file : String)
  | solver4x4Stm
  | solver4x4Mtm (file : String)
  | genericStm
  | todoPanic (msg : String)
deriving DecidableEq, Repr

/-- The message of the `todo!` in the MTM fallback arm of `State::solve`. -/
def todoMsg (w h : Nat) : String :=
  "solving " ++ Nat.repr w ++ "x" ++ Nat.repr h ++ " in MTM is not yet supported"

/-- The `match metric { match (w, h) { ... } }` dispatch of `State::solve`
(`src/state.rs`), arm for arm; the Rust or-patterns `(3, 2) | (2, 3)` are
written as two arms with the same right-hand side. -/
def dispatch (w h : Nat) (m : Metric) : Strategy :=
  match m, w, h with
  | .stm, 2, 2 => .pdbSolver .s2x2stm "2x2-stm.bin"
  | .stm, 3, 2 => .pdbSolver .s3x2stm "3x2-stm.bin"
  | .stm, 2, 3 => .pdbSolver .s3x2stm "3x2-stm.bin"
  | .stm, 3, 3 => .pdbSolver .s3x3stm "3x3-stm.bin"
  | .stm, 4, 2 => .pdbSolver .s4x2stm "4x2-stm.bin"
  | .stm, 2, 4 => .pdbSolver .s4x2stm "4x2-stm.bin"
  | .stm, 4, 3 => .pdbSolver .s4x3stm "4x3-stm.bin"
  | .stm, 3, 4 => .pdbSolver .s4x3stm "4x3-stm.bin"
  | .stm, 5, 2 => .pdbSolver .s5x2stm "5x2-stm.bin"
  | .stm, 2, 5 => .pdbSolver .s5x2stm "5x2-stm.bin"
  | .stm, 6, 2 => .pdbSolver .s6x2stm "6x2-stm.bin"
  | .stm, 2, 6 => .pdbSolver .s6x2stm "6x2-stm.bin"
  | .stm, 4, 4 => .solver4x4Stm
  | .stm, _, _ => .genericStm
  | .mtm, 2, 2 => .pdbSolver .s2x2mtm "2x2-mtm.bin"
  | .mtm, 3, 2 => .pdbSolver .s3x2mtm "3x2-mtm.bin"
  | .mtm, 2, 3 => .pdbSolver .s3x2mtm "3x2-mtm.bin"
  | .mtm, 3, 3 => .pdbSolver .s3x3mtm "3x3-mtm.bin"
  | .mtm, 4, 2 => .pdbSolver .s4x2mtm "4x2-mtm.bin"
  | .mtm, 2, 4 => .pdbSolver .s4x2mtm "4x2-mtm.bin"
  | .mtm, 4, 3 => .pdbSolver .s4x3mtm "4x3-mtm.bin"
  | .mtm, 3, 4 => .pdbSolver .s4x3mtm "4x3-mtm.bin"
  | .mtm, 5, 2 => .pdbSolver .s5x2mtm "5x2-mtm.bin"
  | .mtm, 2, 5 => .pdbSolver .s5x2mtm "5x2-mtm.bin"
  | .mtm, 6, 2 => .pdbSolver .s6x2mtm "6x2-mtm.bin"
  | .mtm, 2, 6 => .pdbSolver .s6x2mtm "6x2-mtm.bin"
  | .mtm, 4, 4 => .solver4x4Mtm "4x4-mtm.bin"
  | .mtm, _, _ => .todoPanic (todoMsg w h)

/-- The cached-solver slot a strategy uses, if any. -/
def stratSlot : Strategy → Option Slot
  | .pdbSolver s _ => some s
  | .solver4x4Stm => some .s4x4stm
  | .solver4x4Mtm _ => some .s4x4mtm
  | .genericStm => none
  | .todoPanic _ => none

/-- The cached-solver slot `State::solve` dispatches a configuration and
metric to, if any. -/
def slotOf (w h : Nat) (m : Metric) : Option Slot :=
  stratSlot (dispatch w h m)

theorem slotOf_symm_aux (w h : Nat) (m : Metric) : slotOf w h m = slotOf h w m := by
  cases m <;>
    rcases w with _ | _ | _ | _ | _ | _ | _ | w <;>
      rcases h with _ | _ | _ | _ | _ | _ | _ | h <;> rfl

/-- The string form of a metric used in pdb file names. -/
def metricStr : Metric → String
  | .stm => "stm"
  | .mtm => "mtm"

/-- The deterministic pdb file name for a configuration and metric: the
normalized (larger-first) dimensions joined by `x`, a dash, the metric, and
the `.bin` extension. -/
def pdbFileName (w h : Nat) (m : Metric) : String :=
  Nat.repr (max w h) ++ "x" ++ Nat.repr (min w h) ++ "-" ++ metricStr m ++ ".bin"

/-- The pdb slot and file of a strategy, when it is backed by a pdb file
(the `solve!` arms and the 4x4 MTM arm). -/
def pdbFileSlot : Strategy → Option (Slot × String)
  | .pdbSolver s f => some (s, f)
  | .solver4x4Stm => none
  | .solver4x4Mtm f => some (.s4x4mtm, f)
  | .genericStm => none
  | .todoPanic _ => none

/-- Boolean form of: when the dispatch for `(w, h, m)` is pdb-file-backed,
its file is named `pdbFileName w h m`. -/
def fileNameOkB (w h : Nat) (m : Metric) : Bool :=
  match pdbFileSlot (dispatch w h m) with
  | some p => p.2 == pdbFileName w h m
  | none => true

theorem fileNameOk_all (w h : Nat) (m : Metric) : fileNameOkB w h m = true := by
  cases m <;>
    rcases w with _ | _ | _ | _ | _ | _ | _ | w <;>
      rcases h with _ | _ | _ | _ | _ | _ | _ | h <;> rfl

/-- The in-memory solver cache: which `OnceCell` fields of `State` hold a
constructed solver. -/
structure Cache where
  filled : Slot → Bool

/-- Marking a `OnceCell` as initialized (`get_or_init` ran its closure). -/
def Cache.fill (c : Cache) (s : Slot) : Cache :=
  ⟨fun t => if t = s then true else c.filled t⟩

/-- The cache of a freshly constructed `State` (`State::new`): every cell
empty. -/
def emptyCache : Cache := ⟨fun _ => false⟩

/-- The pdb cache directory contents: file name to file bytes, `none` when
reading the file fails (`std::fs::read` returning `Err`). -/
abbrev FS := String → Option (List Nat)

/-- A directory with no readable pdb files. -/
def emptyFS : FS := fun _ => none

/-- Writing one file (`std::fs::write`). -/
def FS.update (fs : FS) (name : String) (bytes : List Nat) : FS :=
  fun n => if n = name then some bytes else fs n

/-- The external pdb codec of the `slidy` library, per slot: `fresh` is the
serialized form of `PdbTy::new()` (a deterministic, expensive computation),
and `validate` is `try_from_bytes`, returning the decoded table when the
embedded checksum matches and `none` otherwise. -/
structure PdbSpec where
  fresh : Slot → List Nat
  validate : Slot → List Nat → Option (List Nat)

/-- The observable side effects of one `State::solve` call. -/
inductive Event where
  | createDirAll
  | readFile (name : String)
  | writeFile (name : String) (bytes : List Nat)
  | constructCached (slot : Slot)
  | constructGeneric (w h : Nat)
deriving DecidableEq, Repr

/-- How a `State::solve` call terminates: normally with a move sequence, or
by panicking (the `todo!` arm). -/
inductive Outcome where
  | ok
  | panicked (msg : String)
deriving DecidableEq, Repr

/-- Result of one `State::solve` call: its outcome, the cache and file
system it leaves behind, the side effects it performed in order, and the
pdb bytes it wrapped into a newly constructed solver (if any). -/
structure SolveOut where
  outcome : Outcome
  cache : Cache
  fs : FS
  trace : List Event
  used : Option (List Nat)

/-- The pdb load-or-rebuild logic shared by the `solve!` macro and the 4x4
MTM arm of `State::solve`: read the file; on read failure build a fresh
table and write it; on a read success whose bytes fail `try_from_bytes`,
likewise build a fresh table and write it; otherwise use the decoded bytes.
Returns the pdb used, the resulting file system, and the file events. -/
def pdbLoad (ps : PdbSpec) (slot : Slot) (file : String) (fs : FS) :
    List Nat × FS × List Event :=
  match fs file with
  | none =>
    (ps.fresh slot, fs.update file (ps.fresh slot),
      [Event.readFile file, Event.writeFile file (ps.fresh slot)])
  | some bytes =>
    match ps.validate slot bytes with
    | some pdb => (pdb, fs, [Event.readFile file])
    | none =>
      (ps.fresh slot, fs.update file (ps.fresh slot),
        [Event.readFile file, Event.writeFile file (ps.fresh slot)])

/-- `State::solve` (`src/state.rs`), operationally.  The function first
unconditionally builds the `solver/pdb` cache path and runs
`std::fs::create_dir_all` on it, then dispatches on `(metric, (w, h))`.
Cached arms consult their `OnceCell`: when it is already filled nothing
else happens; otherwise the solver is constructed (for pdb-backed arms via
`pdbLoad`) and the cell filled.  The STM fallback arm constructs a fresh
uncached `ManhattanDistance` solver each call, and the MTM fallback arm is
the `todo!` panic.  The external solver's `.solve(puzzle).unwrap()` and
write failures of `std::fs::write(..).unwrap()` are outside this model: the
former is treated as succeeding, the latter as a file system that accepts
every write. -/
def stateSolve (ps : PdbSpec) (c : Cache) (fs : FS) (w h : Nat) (m : Metric) :
    SolveOut :=
  match dispatch w h m with
  | .pdbSolver slot file =>
    if c.filled slot then
      ⟨.ok, c, fs, [.createDirAll], none⟩
    else
      let r := pdbLoad ps slot file fs
      ⟨.ok, c.fill slot, r.2.1,
        .createDirAll :: (r.2.2 ++ [.constructCached slot]), some r.1⟩
  | .solver4x4Stm =>
    if c.filled .s4x4stm then
      ⟨.ok, c, fs, [.createDirAll], none⟩
    else
      ⟨.ok, c.fill .s4x4stm, fs, [.createDirAll, .constructCached .s4x4stm], none⟩
  | .solver4x4Mtm file =>
    if c.filled .s4x4mtm then
      ⟨.ok, c, fs, [.createDirAll], none⟩
    else
      let r := pdbLoad ps .s4x4mtm file fs
      ⟨.ok, c.fill .s4x4mtm, r.2.1,
        .createDirAll :: (r.2.2 ++ [.constructCached .s4x4mtm]), some r.1⟩
  | .genericStm =>
    ⟨.ok, c, fs, [.createDirAll, .constructGeneric w h], none⟩
  | .todoPanic msg =>
    ⟨.panicked msg, c, fs, [.createDirAll], none⟩

/-- A whole process lifetime: a sequence of `State::solve` requests against
one `State`, threading the cache and the file system, concatenating the
side-effect traces, and stopping at the first panic (a panic aborts the
process). -/
def runAll (ps : PdbSpec) :
    List (Nat × Nat × Metric) → Cache → FS → Cache × FS × List Event
  | [], c, fs => (c, fs, [])
  | (w, h, m) :: rest, c, fs =>
    let r := stateSolve ps c fs w h m
    match r.outcome with
    | .panicked _ => (r.cache, r.fs, r.trace)
    | .ok =>
      let after := runAll ps rest r.cache r.fs
      (after.1, after.2.1, r.trace ++ after.2.2)

/-- Number of occurrences of one event in a trace. -/
def countEv (e : Event) : List Event → Nat
  | [] => 0
  | x :: rest => (if x = e then 1 else 0) + countEv e rest

theorem countEv_append (e : Event) (l1 l2 : List Event) :
    countEv e (l1 ++ l2) = countEv e l1 + countEv e l2 := by
  induction l1 with
  | nil => simp [countEv]
  | cons x rest ih => simp [countEv, ih]; omega

/-- How a `Runner::solve` call terminates: with a returned error, normally,
or by panicking (`unimplemented!` for the Grids label). -/
inductive RunRes where
  | errMsg (msg : String) (trace : List Event)
  | done (trace : List Event)
  | panicked (msg : String) (trace : List Event)
deriving DecidableEq, Repr

/-- `Runner::solve` (`src/run.rs`): the guard rejecting MTM with a label
other than row grids runs first, before any solver work; then the label is
matched.  Row grids go through `State::solve`; the `Grids` label is
`unimplemented!`; every other label constructs a fresh uncached solver with
a label-specific Manhattan heuristic (collapsed here into one arm, with a
`constructGeneric` event standing for the `Solver::new` call; whether that
solver's own solve errors is outside this model). -/
def runnerSolve (ps : PdbSpec) (c : Cache) (fs : FS) (w h : Nat) (m : Metric)
    (label : LabelType) : RunRes :=
  if m = .mtm ∧ label ≠ .rowGrids then
    .errMsg "solving labels other than row grids in MTM is not supported" []
  else
    match label with
    | .rowGrids =>
      let r := stateSolve ps c fs w h m
      match r.outcome with
      | .ok => .done r.trace
      | .panicked msg => .panicked msg r.trace
    | .grids => .panicked "not implemented" []
    | _ => .done [Event.constructGeneric w h]

/-- The operations `Runner::optimize` uses on the external `Algorithm` /
`AlgorithmSlice` types (`src/algorithm_ext.rs` and the `slidy` library):
length and slicing under a metric, simplification, minimal applicable
size, inversion and concatenation.  `sliceMetric a m i j` is
`a.slice_metric(m, i..j)`, with `none` for a slicing error. -/
structure AlgOps (α : Type) where
  lenMetric : α → Metric → Nat
  sliceMetric : α → Metric → Nat → Nat → Option α
  simplify : α → α
  minApplicableSize : α → Option (Nat × Nat)
  inverse : α → α
  append : α → α → α

/-- The puzzle-state operations `Runner::optimize` uses: `Puzzle::new`
(solved state of a size), applying a move sequence, and `State::solve`. -/
structure SolverOps (α : Type) (σ : Type) where
  newPuzzle : Nat × Nat → σ
  applyAlg : σ → α → σ
  solve : σ → Metric → α

/-- Result of the optimize loop: the final sequence, a propagated slicing
error (`?` on `slice_metric`), or exhaustion of the fuel that bounds the
loop in this embedding (the Rust loop has no fuel; `optimize` supplies
enough for the loop as analysed in the termination theorem). -/
inductive OptResult (α : Type) where
  | ok (alg : α)
  | sliceErr
  | outOfFuel
deriving DecidableEq, Repr

/-- The `solution` binding of the loop body: build a solved puzzle of the
window's minimal applicable size, apply the window to it, and solve the
scrambled state (`self.state.solve(&puzzle, metric)`). -/
def windowSolution {α σ : Type} (sops : SolverOps α σ)
    (metric : Metric) (size : Nat × Nat) (s : α) : α :=
  sops.solve (sops.applyAlg (sops.newPuzzle size) s) metric

/-- The `while idx + length <= alg.len_metric(metric)` loop of
`Runner::optimize` (`src/run.rs`): slice the window `[idx, idx + length)`;
if it has no minimal applicable size, advance `idx`; otherwise apply it to
a solved puzzle of that size, solve, and either advance `idx` (the window
was already optimal) or splice `prefix + solution.inverse() + suffix` and
retry at the same `idx`. -/
def optimizeLoop {α σ : Type} (ops : AlgOps α) (sops : SolverOps α σ)
    (metric : Metric) (length : Nat) :
    Nat → Nat → α → OptResult α
  | 0, _, _ => .outOfFuel
  | fuel + 1, idx, alg =>
    if idx + length ≤ ops.lenMetric alg metric then
      match ops.sliceMetric alg metric idx (idx + length) with
      | none => .sliceErr
      | some s =>
        match ops.minApplicableSize s with
        | none => optimizeLoop ops sops metric length fuel (idx + 1) alg
        | some size =>
          if ops.lenMetric (windowSolution sops metric size s) metric =
              length then
            optimizeLoop ops sops metric length fuel (idx + 1) alg
          else
            match ops.sliceMetric alg metric 0 idx,
                ops.sliceMetric alg metric (idx + length)
                  (ops.lenMetric alg metric) with
            | some s1, some s2 =>
              optimizeLoop ops sops metric length fuel idx
                (ops.append
                  (ops.append s1
                    (ops.inverse (windowSolution sops metric size s)))
                  s2)
            | _, _ => .sliceErr
    else .ok alg

/-- `Runner::optimize`: simplify the input, then run the loop from
`idx = 0`.  The fuel `n * n + 2 * n + 1` strictly exceeds the measure
`n * (n + 1) + n` that bounds the number of loop iterations. -/
def optimize {α σ : Type} (ops : AlgOps α) (sops : SolverOps α σ)
    (metric : Metric) (alg : α) (length : Nat) : OptResult α :=
  let a := ops.simplify alg
  let n := ops.lenMetric a metric
  optimizeLoop ops sops metric length (n * n + 2 * n + 1) 0 a

/-- The contract of the external `slidy` library as `Runner::optimize`
relies on it (spec §6), stated over an effect map `eff` into a group:
slicing an in-range move-index range succeeds and has the range's length;
concatenation adds lengths and composes effects; inversion preserves
length and inverts effects; simplification never lengthens and preserves
effects; a sequence decomposes into three adjacent slices; the solver's
answer for a scrambled state is no longer than the scramble and has the
inverse effect; and equal effects act equally on every puzzle state. -/
structure OptLaws {α σ G : Type} [Group G] (ops : AlgOps α)
    (sops : SolverOps α σ) (eff : α → G) (metric : Metric) : Prop where
  slice_some : ∀ a i j, i ≤ j → j ≤ ops.lenMetric a metric →
    ∃ s, ops.sliceMetric a metric i j = some s
  slice_len : ∀ a i j s, ops.sliceMetric a metric i j = some s →
    ops.lenMetric s metric = j - i
  len_append : ∀ a b, ops.lenMetric (ops.append a b) metric =
    ops.lenMetric a metric + ops.lenMetric b metric
  len_inverse : ∀ a, ops.lenMetric (ops.inverse a) metric =
    ops.lenMetric a metric
  len_simplify : ∀ a, ops.lenMetric (ops.simplify a) metric ≤
    ops.lenMetric a metric
  eff_append : ∀ a b, eff (ops.append a b) = eff a * eff b
  eff_inverse : ∀ a, eff (ops.inverse a) = (eff a)⁻¹
  eff_simplify : ∀ a, eff (ops.simplify a) = eff a
  eff_decomp : ∀ a i j s1 s2 s3,
    ops.sliceMetric a metric 0 i = some s1 →
    ops.sliceMetric a metric i j = some s2 →
    ops.sliceMetric a metric j (ops.lenMetric a metric) = some s3 →
    eff a = eff s1 * (eff s2 * eff s3)
  solve_len : ∀ sz a,
    ops.lenMetric (windowSolution sops metric sz a) metric ≤
      ops.lenMetric a metric
  solve_eff : ∀ sz a,
    eff (windowSolution sops metric sz a) = (eff a)⁻¹
  apply_eff : ∀ st a b, eff a = eff b → sops.applyAlg st a = sops.applyAlg st b

/-- Loop invariant: a normal exit of the optimize loop carries a sequence
no longer (under the metric) than the sequence the loop was entered with,
and with the same net effect. -/
theorem optimizeLoop_ok {α σ G : Type} [Group G] {ops : AlgOps α}
    {sops : SolverOps α σ} {eff : α → G} {metric : Metric}
    (hl : OptLaws ops sops eff metric) (L : Nat) :
    ∀ fuel idx alg r, optimizeLoop ops sops metric L fuel idx alg = .ok r →
      ops.lenMetric r metric ≤ ops.lenMetric alg metric ∧ eff r = eff alg := by
  intro fuel
  induction fuel with
  | zero =>
    intro idx alg r h
    simp [optimizeLoop] at h
  | succ f ih =>
    intro idx alg r h
    rw [optimizeLoop] at h
    by_cases hg : idx + L ≤ ops.lenMetric alg metric
    · rw [if_pos hg] at h
      cases hs : ops.sliceMetric alg metric idx (idx + L) with
      | none => rw [hs] at h; simp at h
      | some s =>
        rw [hs] at h
        simp only at h
        cases hm : ops.minApplicableSize s with
        | none =>
          rw [hm] at h
          simp only at h
          exact ih _ _ _ h
        | some size =>
          rw [hm] at h
          simp only at h
          by_cases he :
              ops.lenMetric (windowSolution sops metric size s) metric = L
          · rw [if_pos he] at h
            exact ih _ _ _ h
          · rw [if_neg he] at h
            cases h1 : ops.sliceMetric alg metric 0 idx with
            | none => rw [h1] at h; simp at h
            | some s1 =>
              rw [h1] at h
              cases h2 : ops.sliceMetric alg metric (idx + L)
                  (ops.lenMetric alg metric) with
              | none => rw [h2] at h; simp at h
              | some s2 =>
                rw [h2] at h
                simp only at h
                obtain ⟨hle, heff⟩ := ih _ _ _ h
                have hs1len : ops.lenMetric s1 metric = idx := by
                  have := hl.slice_len _ _ _ _ h1
                  omega
                have hs2len : ops.lenMetric s2 metric =
                    ops.lenMetric alg metric - (idx + L) :=
                  hl.slice_len _ _ _ _ h2
                have hslen : ops.lenMetric s metric = L := by
                  have := hl.slice_len _ _ _ _ hs
                  omega
                have hsol : ops.lenMetric
                    (windowSolution sops metric size s) metric ≤ L := by
                  have := hl.solve_len size s
                  omega
                have hnewlen : ops.lenMetric
                    (ops.append (ops.append s1
                      (ops.inverse (windowSolution sops metric size s))) s2)
                      metric ≤ ops.lenMetric alg metric := by
                  rw [hl.len_append, hl.len_append, hl.len_inverse, hs1len,
                    hs2len]
                  omega
                have hneweff : eff
                    (ops.append (ops.append s1
                      (ops.inverse (windowSolution sops metric size s))) s2)
                      = eff alg := by
                  rw [hl.eff_append, hl.eff_append, hl.eff_inverse,
                    hl.solve_eff, inv_inv,
                    hl.eff_decomp alg idx (idx + L) s1 s s2 h1 hs h2,
                    mul_assoc]
                exact ⟨le_trans hle hnewlen, heff.trans hneweff⟩
    · rw [if_neg hg] at h
      cases h
      exact ⟨le_refl _, rfl⟩

/-- Progress: with fuel exceeding the measure
`len * B + (len - idx)` (for any bound `B` above every length the loop will
see), the loop exits normally: each iteration either advances the cursor
past a sequence of unchanged length or strictly shortens the sequence, and
in-range slices never fail. -/
theorem optimizeLoop_progress {α σ G : Type} [Group G] {ops : AlgOps α}
    {sops : SolverOps α σ} {eff : α → G} {metric : Metric}
    (hl : OptLaws ops sops eff metric) (L : Nat) (hL : 1 ≤ L) (B : Nat) :
    ∀ fuel idx alg, ops.lenMetric alg metric < B →
      ops.lenMetric alg metric * B + (ops.lenMetric alg metric - idx) < fuel →
      ∃ r, optimizeLoop ops sops metric L fuel idx alg = .ok r := by
  intro fuel
  induction fuel with
  | zero =>
    intro idx alg hB hmu
    omega
  | succ f ih =>
    intro idx alg hB hmu
    rw [optimizeLoop]
    by_cases hg : idx + L ≤ ops.lenMetric alg metric
    · rw [if_pos hg]
      obtain ⟨s, hs⟩ := hl.slice_some alg idx (idx + L) (by omega) hg
      rw [hs]
      simp only
      cases hm : ops.minApplicableSize s with
      | none =>
        simp only
        exact ih (idx + 1) alg hB (by omega)
      | some size =>
        simp only
        by_cases he :
            ops.lenMetric (windowSolution sops metric size s) metric = L
        · rw [if_pos he]
          exact ih (idx + 1) alg hB (by omega)
        · rw [if_neg he]
          obtain ⟨s1, h1⟩ := hl.slice_some alg 0 idx (Nat.zero_le idx)
            (by omega)
          obtain ⟨s2, h2⟩ := hl.slice_some alg (idx + L)
            (ops.lenMetric alg metric) hg (le_refl _)
          rw [h1, h2]
          simp only
          have hs1len : ops.lenMetric s1 metric = idx := by
            have := hl.slice_len _ _ _ _ h1
            omega
          have hs2len : ops.lenMetric s2 metric =
              ops.lenMetric alg metric - (idx + L) :=
            hl.slice_len _ _ _ _ h2
          have hslen : ops.lenMetric s metric = L := by
            have := hl.slice_len _ _ _ _ hs
            omega
          have hsol : ops.lenMetric
              (windowSolution sops metric size s) metric ≤ L := by
            have := hl.solve_len size s
            omega
          have hnewlen : ops.lenMetric
              (ops.append (ops.append s1
                (ops.inverse (windowSolution sops metric size s))) s2)
                metric =
              idx + ops.lenMetric (windowSolution sops metric size s)
                metric + (ops.lenMetric alg metric - (idx + L)) := by
            rw [hl.len_append, hl.len_append, hl.len_inverse, hs1len, hs2len]
          apply ih
          · omega
          · have h3 : ops.lenMetric
                (ops.append (ops.append s1
                  (ops.inverse (windowSolution sops metric size s))) s2)
                  metric + 1 ≤ ops.lenMetric alg metric := by
              omega
            have h4 := Nat.mul_le_mul_right B h3
            have h5 : (ops.lenMetric
                (ops.append (ops.append s1
                  (ops.inverse (windowSolution sops metric size s))) s2)
                  metric + 1) * B =
                ops.lenMetric
                  (ops.append (ops.append s1
                    (ops.inverse (windowSolution sops metric size s))) s2)
                    metric * B + B := by
              ring
            omega
    · rw [if_neg hg]
      exact ⟨alg, rfl⟩

/-!
A small executable model of the external library interface, used to
witness the optimizer theorems on concrete inputs: a move sequence is a
list of booleans (`true` a right move, `false` its inverse left move), the
net effect of a sequence is the integer sum of its moves, a puzzle state is
the integer reached from the solved state `0`, and the optimal solver
returns the canonical shortest word for the inverse of the state.
-/

/-- The signed value of one move of the concrete model. -/
def moveVal (b : Bool) : Int := if b then 1 else -1

/-- The net effect (integer sum) of a concrete move sequence. -/
def algSum : List Bool → Int
  | [] => 0
  | b :: rest => moveVal b + algSum rest

theorem algSum_append (l1 l2 : List Bool) :
    algSum (l1 ++ l2) = algSum l1 + algSum l2 := by
  induction l1 with
  | nil => simp [algSum]
  | cons b rest ih => simp [algSum, ih]; ring

theorem algSum_reverse (l : List Bool) : algSum l.reverse = algSum l := by
  induction l with
  | nil => rfl
  | cons b rest ih =>
    simp [algSum, List.reverse_cons, algSum_append, ih]
    ring

theorem algSum_map_not (l : List Bool) :
    algSum (l.map Bool.not) = -algSum l := by
  induction l with
  | nil => rfl
  | cons b rest ih =>
    cases b <;> simp [algSum, moveVal, ih] <;> ring

theorem algSum_natAbs_le (l : List Bool) : (algSum l).natAbs ≤ l.length := by
  induction l with
  | nil => simp [algSum]
  | cons b rest ih =>
    have h1 := Int.natAbs_add_le (moveVal b) (algSum rest)
    have h2 : (moveVal b).natAbs = 1 := by cases b <;> rfl
    simp only [algSum, List.length_cons]
    omega

theorem algSum_replicate_false (n : Nat) :
    algSum (List.replicate n false) = -(n : Int) := by
  induction n with
  | zero => rfl
  | succ k ih =>
    simp [List.replicate_succ, algSum, moveVal, ih]

theorem algSum_replicate_true (n : Nat) :
    algSum (List.replicate n true) = (n : Int) := by
  induction n with
  | zero => rfl
  | succ k ih =>
    simp [List.replicate_succ, algSum, moveVal, ih]
    ring

/-- Concrete `AlgOps`: length is the list length in either metric,
slicing is `drop`/`take` on in-range bounds and fails otherwise,
simplification is the identity (the inputs used are already simplified),
and the minimal applicable size is a parameter (`msz`), so that both a
model where every window is applicable and one where no window is
applicable are available. -/
def bOps (msz : List Bool → Option (Nat × Nat)) : AlgOps (List Bool) where
  lenMetric := fun a _ => a.length
  sliceMetric := fun a _ i j =>
    if i ≤ j ∧ j ≤ a.length then some ((a.drop i).take (j - i)) else none
  simplify := fun a => a
  minApplicableSize := msz
  inverse := fun a => (a.map Bool.not).reverse
  append := fun a b => a ++ b

/-- Every window has minimal applicable size 2x2. -/
def mszConst : List Bool → Option (Nat × Nat) := fun _ => some (2, 2)

/-- No window has an applicable size (every window is a no-op window). -/
def mszNone : List Bool → Option (Nat × Nat) := fun _ => none

/-- The canonical shortest concrete sequence with net effect `-k`. -/
def canonWord (k : Int) : List Bool :=
  if 0 ≤ k then List.replicate k.toNat false else List.replicate (-k).toNat true

theorem algSum_canonWord (k : Int) : algSum (canonWord k) = -k := by
  rw [canonWord]
  by_cases h : 0 ≤ k
  · rw [if_pos h, algSum_replicate_false, Int.toNat_of_nonneg h]
  · rw [if_neg h, algSum_replicate_true, Int.toNat_of_nonneg (by omega)]

theorem canonWord_length (k : Int) : (canonWord k).length = k.natAbs := by
  rw [canonWord]
  by_cases h : 0 ≤ k
  · rw [if_pos h, List.length_replicate]
    omega
  · rw [if_neg h, List.length_replicate]
    omega

/-- Concrete `SolverOps`: states are integers, the solved state is `0`,
applying a sequence adds its net effect, and the solver returns the
canonical shortest word undoing the state. -/
def bSops : SolverOps (List Bool) Int where
  newPuzzle := fun _ => 0
  applyAlg := fun g a => g + algSum a
  solve := fun g _ => canonWord g

/-- The net effect of a concrete sequence, as an element of the
multiplicative group of integers. -/
def beff (a : List Bool) : Multiplicative Int :=
  Multiplicative.ofAdd (algSum a)

theorem bSlice_eq (msz : List Bool → Option (Nat × Nat)) (a : List Bool)
    (m : Metric) (i j : Nat) (s : List Bool)
    (h : (bOps msz).sliceMetric a m i j = some s) :
    i ≤ j ∧ j ≤ a.length ∧ s = (a.drop i).take (j - i) := by
  by_cases hij : i ≤ j ∧ j ≤ a.length
  · refine ⟨hij.1, hij.2, ?_⟩
    simp only [bOps, if_pos hij] at h
    exact (Option.some.inj h).symm
  · simp only [bOps, if_neg hij] at h
    cases h

/-- The concrete model satisfies the library contract, for either metric
and any minimal-applicable-size function. -/
theorem bLaws (msz : List Bool → Option (Nat × Nat)) (metric : Metric) :
    OptLaws (bOps msz) bSops beff metric := by
  constructor
  case slice_some =>
    intro a i j hij hj
    exact ⟨(a.drop i).take (j - i), by simp only [bOps]; rw [if_pos ⟨hij, hj⟩]⟩
  case slice_len =>
    intro a i j s h
    obtain ⟨hij, hj, hs⟩ := bSlice_eq msz a metric i j s h
    subst hs
    simp only [bOps, List.length_take, List.length_drop]
    omega
  case len_append =>
    intro a b
    simp [bOps]
  case len_inverse =>
    intro a
    simp [bOps]
  case len_simplify =>
    intro a
    simp [bOps]
  case eff_append =>
    intro a b
    simp only [bOps, beff, algSum_append]
    rw [ofAdd_add]
  case eff_inverse =>
    intro a
    simp only [bOps, beff, algSum_reverse, algSum_map_not]
    rw [ofAdd_neg]
  case eff_simplify =>
    intro a
    rfl
  case eff_decomp =>
    intro a i j s1 s2 s3 h1 h2 h3
    obtain ⟨-, hi, hs1⟩ := bSlice_eq msz a metric 0 i s1 h1
    obtain ⟨hij, hj, hs2⟩ := bSlice_eq msz a metric i j s2 h2
    obtain ⟨hjl, -, hs3⟩ := bSlice_eq msz a metric j (a.length) s3 h3
    subst hs1; subst hs2; subst hs3
    have hdecomp : a = (a.drop 0).take (i - 0) ++
        ((a.drop i).take (j - i) ++ (a.drop j).take (a.length - j)) := by
      have e3 : (a.drop j).take (a.length - j) = a.drop j := by
        rw [← List.length_drop]
        exact List.take_length _
      have e2 : (a.drop i).take (j - i) ++ (a.drop i).drop (j - i) =
          a.drop i := List.take_append_drop _ _
      have e2' : (a.drop i).drop (j - i) = a.drop j := by
        rw [List.drop_drop]
        congr 1
        omega
      rw [e3, ← e2', e2]
      simp only [List.drop_zero, Nat.sub_zero]
      exact (List.take_append_drop i a).symm
    simp only [beff]
    rw [← ofAdd_add, ← ofAdd_add, ← algSum_append, ← algSum_append]
    exact congrArg Multiplicative.ofAdd (congrArg algSum hdecomp)
  case solve_len =>
    intro sz a
    simp only [bOps, windowSolution, bSops, canonWord_length]
    have h1 := algSum_natAbs_le a
    have h2 : ((0 : Int) + algSum a).natAbs = (algSum a).natAbs := by
      rw [zero_add]
    omega
  case solve_eff =>
    intro sz a
    simp only [windowSolution, bSops, beff]
    rw [algSum_canonWord, zero_add, ofAdd_neg]
  case apply_eff =>
    intro st a b h
    have : algSum a = algSum b := Multiplicative.ofAdd.injective h
    simp only [bSops, this]

/-- Helper: with the library contract and a window length of at least one,
`optimize` exits normally (no slicing error, fuel never exhausted). -/
theorem optimize_ok {α σ G : Type} [Group G] {ops : AlgOps α}
    {sops : SolverOps α σ} {eff : α → G} {metric : Metric}
    (hl : OptLaws ops sops eff metric) (S : α) (L : Nat) (hL : 1 ≤ L) :
    ∃ r, optimize ops sops metric S L = .ok r := by
  rw [optimize]
  exact optimizeLoop_progress hl L hL
    (ops.lenMetric (ops.simplify S) metric + 1) _ 0 (ops.simplify S)
    (by omega)
    (by
      have h : ops.lenMetric (ops.simplify S) metric *
          (ops.lenMetric (ops.simplify S) metric + 1) =
          ops.lenMetric (ops.simplify S) metric *
            ops.lenMetric (ops.simplify S) metric +
            ops.lenMetric (ops.simplify S) metric := by ring
      omega)

/-- A concrete pdb codec for witnesses: the fresh serialized table is `[1]`
and `try_from_bytes` succeeds exactly on `[1]` (a stand-in checksum). -/
def ps0 : PdbSpec :=
  ⟨fun _ => [1], fun _ b => if b = [1] then some [1] else none⟩

/-- A file system holding one corrupt pdb file for the 3x2 STM key. -/
def corruptFS : FS := FS.update emptyFS "3x2-stm.bin" [9]

/-- Helper: `pdbLoad` on a file that cannot be read (the `std::fs::read`
Err path) or whose bytes fail validation (`try_from_bytes` returning
nothing) rebuilds the fresh table and writes it back. -/
theorem pdbLoad_bad (ps : PdbSpec) (slot : Slot) (file : String)
    (fs : FS)
    (hbad : fs file = none ∨
      ∃ bytes, fs file = some bytes ∧ ps.validate slot bytes = none) :
    pdbLoad ps slot file fs =
      (ps.fresh slot, fs.update file (ps.fresh slot),
        [Event.readFile file, Event.writeFile file (ps.fresh slot)]) := by
  rcases hbad with hnone | ⟨bytes, hfs, hval⟩
  · simp only [pdbLoad, hnone]
  · simp only [pdbLoad, hfs, hval]

/-- Helper: `pdbLoad` always leaves the loaded file present and touches no
other file. -/
theorem pdbLoad_fs_spec (ps : PdbSpec) (slot : Slot) (file : String)
    (fs : FS) :
    (∃ b, (pdbLoad ps slot file fs).2.1 file = some b) ∧
      ∀ g, g ≠ file → (pdbLoad ps slot file fs).2.1 g = fs g := by
  cases hfs : fs file with
  | none =>
    simp only [pdbLoad, hfs, FS.update]
    exact ⟨⟨ps.fresh slot, by simp⟩, fun g hg => by simp [hg]⟩
  | some bytes =>
    cases hval : ps.validate slot bytes with
    | none =>
      simp only [pdbLoad, hfs, hval, FS.update]
      exact ⟨⟨ps.fresh slot, by simp⟩, fun g hg => by simp [hg]⟩
    | some pdb =>
      refine ⟨⟨bytes, ?_⟩, fun g hg => ?_⟩ <;> simp [pdbLoad, hfs, hval]

/-- Helper: `pdbLoad` performs no solver-construction events. -/
theorem pdbLoad_count (ps : PdbSpec) (slot : Slot) (file : String) (fs : FS)
    (s : Slot) :
    countEv (Event.constructCached s) (pdbLoad ps slot file fs).2.2 = 0 := by
  cases hfs : fs file with
  | none => simp [pdbLoad, hfs, countEv]
  | some bytes =>
    cases hval : ps.validate slot bytes with
    | none => simp [pdbLoad, hfs, hval, countEv]
    | some pdb => simp [pdbLoad, hfs, hval, countEv]

/-- Helper: the per-call cache accounting of `State::solve`: a call
constructs a cached solver for slot `s` at most once, never when `s` is
already filled, fills `s` whenever it constructs for `s`, and never empties
a filled slot. -/
theorem stateSolve_count (ps : PdbSpec) (c : Cache) (fs : FS) (w h : Nat)
    (m : Metric) (s : Slot) :
    countEv (Event.constructCached s) (stateSolve ps c fs w h m).trace ≤ 1 ∧
      (c.filled s = true →
        countEv (Event.constructCached s) (stateSolve ps c fs w h m).trace
          = 0) ∧
      (1 ≤ countEv (Event.constructCached s)
          (stateSolve ps c fs w h m).trace →
        (stateSolve ps c fs w h m).cache.filled s = true) ∧
      (c.filled s = true → (stateSolve ps c fs w h m).cache.filled s = true)
    := by
  cases hd : dispatch w h m with
  | pdbSolver slot file =>
    by_cases hc : c.filled slot = true
    · refine ⟨by simp [stateSolve, hd, hc, countEv],
        fun _ => by simp [stateSolve, hd, hc, countEv],
        fun habs => ?_, fun hcs => by simp [stateSolve, hd, hc, hcs]⟩
      simp [stateSolve, hd, hc, countEv] at habs
    · have htrace : (stateSolve ps c fs w h m).trace =
          Event.createDirAll ::
            ((pdbLoad ps slot file fs).2.2 ++ [Event.constructCached slot])
          := by
        simp [stateSolve, hd, if_neg hc]
      have hcache : (stateSolve ps c fs w h m).cache = c.fill slot := by
        simp [stateSolve, hd, if_neg hc]
      have hcount : countEv (Event.constructCached s)
          (stateSolve ps c fs w h m).trace = if slot = s then 1 else 0 := by
        rw [htrace]
        simp [countEv, countEv_append, pdbLoad_count]
      rw [hcount, hcache]
      by_cases hss : slot = s
      · subst hss
        exact ⟨by simp, fun hcs => absurd hcs hc,
          fun _ => by simp [Cache.fill], fun hcs => absurd hcs hc⟩
      · have hfill : (c.fill slot).filled s = c.filled s := by
          simp [Cache.fill, Ne.symm hss]
        rw [if_neg hss, hfill]
        exact ⟨by omega, fun _ => rfl, fun habs => absurd habs (by omega),
          fun hcs => hcs⟩
  | solver4x4Stm =>
    by_cases hc : c.filled Slot.s4x4stm = true
    · refine ⟨by simp [stateSolve, hd, hc, countEv],
        fun _ => by simp [stateSolve, hd, hc, countEv],
        fun habs => ?_, fun hcs => by simp [stateSolve, hd, hc, hcs]⟩
      simp [stateSolve, hd, hc, countEv] at habs
    · have htrace : (stateSolve ps c fs w h m).trace =
          [Event.createDirAll, Event.constructCached Slot.s4x4stm] := by
        simp [stateSolve, hd, if_neg hc]
      have hcache : (stateSolve ps c fs w h m).cache =
          c.fill Slot.s4x4stm := by
        simp [stateSolve, hd, if_neg hc]
      have hcount : countEv (Event.constructCached s)
          (stateSolve ps c fs w h m).trace =
          if Slot.s4x4stm = s then 1 else 0 := by
        rw [htrace]
        simp [countEv]
      rw [hcount, hcache]
      by_cases hss : Slot.s4x4stm = s
      · subst hss
        exact ⟨by simp, fun hcs => absurd hcs hc,
          fun _ => by simp [Cache.fill], fun hcs => absurd hcs hc⟩
      · have hfill : (c.fill Slot.s4x4stm).filled s = c.filled s := by
          simp [Cache.fill, Ne.symm hss]
        rw [if_neg hss, hfill]
        exact ⟨by omega, fun _ => rfl, fun habs => absurd habs (by omega),
          fun hcs => hcs⟩
  | solver4x4Mtm file =>
    by_cases hc : c.filled Slot.s4x4mtm = true
    · refine ⟨by simp [stateSolve, hd, hc, countEv],
        fun _ => by simp [stateSolve, hd, hc, countEv],
        fun habs => ?_, fun hcs => by simp [stateSolve, hd, hc, hcs]⟩
      simp [stateSolve, hd, hc, countEv] at habs
    · have htrace : (stateSolve ps c fs w h m).trace =
          Event.createDirAll ::
            ((pdbLoad ps Slot.s4x4mtm file fs).2.2 ++
              [Event.constructCached Slot.s4x4mtm]) := by
        simp [stateSolve, hd, if_neg hc]
      have hcache : (stateSolve ps c fs w h m).cache =
          c.fill Slot.s4x4mtm := by
        simp [stateSolve, hd, if_neg hc]
      have hcount : countEv (Event.constructCached s)
          (stateSolve ps c fs w h m).trace =
          if Slot.s4x4mtm = s then 1 else 0 := by
        rw [htrace]
        simp [countEv, countEv_append, pdbLoad_count]
      rw [hcount, hcache]
      by_cases hss : Slot.s4x4mtm = s
      · subst hss
        exact ⟨by simp, fun hcs => absurd hcs hc,
          fun _ => by simp [Cache.fill], fun hcs => absurd hcs hc⟩
      · have hfill : (c.fill Slot.s4x4mtm).filled s = c.filled s := by
          simp [Cache.fill, Ne.symm hss]
        rw [if_neg hss, hfill]
        exact ⟨by omega, fun _ => rfl, fun habs => absurd habs (by omega),
          fun hcs => hcs⟩
  | genericStm =>
    refine ⟨by simp [stateSolve, hd, countEv],
      fun _ => by simp [stateSolve, hd, countEv],
      fun habs => ?_, fun hcs => by simp [stateSolve, hd, hcs]⟩
    simp [stateSolve, hd, countEv] at habs
  | todoPanic msg =>
    refine ⟨by simp [stateSolve, hd, countEv],
      fun _ => by simp [stateSolve, hd, countEv],
      fun habs => ?_, fun hcs => by simp [stateSolve, hd, hcs]⟩
    simp [stateSolve, hd, countEv] at habs

/-- Helper: over a whole request list, each cached slot is constructed at
most once; a slot already filled at the start is never constructed. -/
theorem runAll_count (ps : PdbSpec) (s : Slot) :
    ∀ (reqs : List (Nat × Nat × Metric)) (c : Cache) (fs : FS),
      (c.filled s = true →
        countEv (Event.constructCached s) (runAll ps reqs c fs).2.2 = 0) ∧
      countEv (Event.constructCached s) (runAll ps reqs c fs).2.2 ≤ 1 := by
  intro reqs
  induction reqs with
  | nil =>
    intro c fs
    simp [runAll, countEv]
  | cons req rest ih =>
    intro c fs
    obtain ⟨w, h, m⟩ := req
    obtain ⟨hle1, hzero, hfolw, hmono⟩ := stateSolve_count ps c fs w h m s
    simp only [runAll]
    cases ho : (stateSolve ps c fs w h m).outcome with
    | panicked msg =>
      simp only
      exact ⟨hzero, hle1⟩
    | ok =>
      simp only
      obtain ⟨ihzero, ihle⟩ :=
        ih (stateSolve ps c fs w h m).cache (stateSolve ps c fs w h m).fs
      rw [countEv_append]
      constructor
      · intro hcs
        rw [hzero hcs, ihzero (hmono hcs)]
      · by_cases hcall :
            1 ≤ countEv (Event.constructCached s)
              (stateSolve ps c fs w h m).trace
        · have := ihzero (hfolw hcall)
          omega
        · omega

/-!
The claims.
-/

/-- C1 (counterexample): the claim says an unsupported (configuration,
metric) pair makes solve fail with a configuration-unsupported error
returned to the caller, without panicking; but on an 8x8 puzzle under MTM,
State::solve hits the todo! arm and panics instead of returning an
error. -/
theorem C1_counterexample :
    (stateSolve ps0 emptyCache emptyFS 8 8 .mtm).outcome =
      .panicked "solving 8x8 in MTM is not yet supported" := rfl

/-- C1 (amended): for every (configuration, metric) pair whose MTM dispatch
has no supported solving strategy (the todo! fallback arm), State::solve
terminates by panicking with the "not yet supported" message of that arm
(it neither hangs nor returns a wrong answer), rather than returning a
configuration-unsupported error value. -/
theorem C1_unsupported_mtm_panics (ps : PdbSpec) (c : Cache) (fs : FS)
    (w h : Nat) (msg : String) (hd : dispatch w h .mtm = .todoPanic msg) :
    (stateSolve ps c fs w h .mtm).outcome = .panicked msg := by
  simp [stateSolve, hd]

/-- C1 (witness): the amended claim applied to the 8x8 MTM request. -/
theorem C1_unsupported_mtm_panics_witness :
    (stateSolve ps0 emptyCache emptyFS 8 8 .mtm).outcome =
      .panicked (todoMsg 8 8) :=
  C1_unsupported_mtm_panics ps0 emptyCache emptyFS 8 8 (todoMsg 8 8) rfl

/-- C2: for every move sequence S, metric M, and window length L with
1 <= L <= length(S, M), when optimize(S, M, L) returns a sequence, its
length under M is at most length(S, M) (granting the external library its
contract, OptLaws). -/
theorem C2_optimize_length_monotone {α σ G : Type} [Group G]
    {ops : AlgOps α} {sops : SolverOps α σ} {eff : α → G} {metric : Metric}
    (hl : OptLaws ops sops eff metric) (S : α) (L : Nat)
    (h1 : 1 ≤ L) (h2 : L ≤ ops.lenMetric S metric) (r : α)
    (hr : optimize ops sops metric S L = .ok r) :
    ops.lenMetric r metric ≤ ops.lenMetric S metric := by
  simp only [optimize] at hr
  exact le_trans (optimizeLoop_ok hl L _ _ _ _ hr).1 (hl.len_simplify S)

/-- C2 (witness): the concrete run optimize([R, L, R], stm, 2) = [R] is no
longer than its input. -/
theorem C2_optimize_length_monotone_witness :
    (bOps mszConst).lenMetric [true] .stm ≤
      (bOps mszConst).lenMetric [true, false, true] .stm :=
  C2_optimize_length_monotone (bLaws mszConst .stm) [true, false, true] 2
    (by decide) (by decide) [true] rfl

/-- C3: for every move sequence S, metric M, and window length L with
1 <= L <= length(S, M), a sequence returned by optimize(S, M, L) has the
same net effect as S on every puzzle state - in particular on the solved
state of the minimal applicable configuration of S (granting the external
library its contract, OptLaws). -/
theorem C3_optimize_effect_preserved {α σ G : Type} [Group G]
    {ops : AlgOps α} {sops : SolverOps α σ} {eff : α → G} {metric : Metric}
    (hl : OptLaws ops sops eff metric) (S : α) (L : Nat)
    (h1 : 1 ≤ L) (h2 : L ≤ ops.lenMetric S metric) (r : α)
    (hr : optimize ops sops metric S L = .ok r) (st : σ) :
    sops.applyAlg st r = sops.applyAlg st S := by
  simp only [optimize] at hr
  have heq : eff r = eff S :=
    ((optimizeLoop_ok hl L _ _ _ _ hr).2).trans (hl.eff_simplify S)
  exact hl.apply_eff st r S heq

/-- C3 (witness): applying the optimized concrete sequence [R] to the
solved state gives the same state as applying the input [R, L, R]. -/
theorem C3_optimize_effect_preserved_witness :
    bSops.applyAlg 0 [true] = bSops.applyAlg 0 [true, false, true] :=
  C3_optimize_effect_preserved (bLaws mszConst .stm) [true, false, true] 2
    (by decide) (by decide) [true] rfl 0

/-- C4: on first use of a pdb-file-backed CacheKey, if the LookupTableFile
cannot be read (the `std::fs::read` Err path) or its bytes fail the
embedded integrity check (`try_from_bytes` rejects them), State::solve
rebuilds the table from scratch, writes it back to the same path, and
returns normally; neither failure is ever surfaced as an error. -/
theorem C4_corrupt_pdb_regenerated (ps : PdbSpec) (c : Cache) (fs : FS)
    (w h : Nat) (m : Metric) (slot : Slot) (file : String)
    (hd : pdbFileSlot (dispatch w h m) = some (slot, file))
    (hc : c.filled slot = false)
    (hbad : fs file = none ∨
      ∃ bytes, fs file = some bytes ∧ ps.validate slot bytes = none) :
    (stateSolve ps c fs w h m).outcome = .ok ∧
      (stateSolve ps c fs w h m).used = some (ps.fresh slot) ∧
      (stateSolve ps c fs w h m).fs file = some (ps.fresh slot) ∧
      Event.writeFile file (ps.fresh slot) ∈
        (stateSolve ps c fs w h m).trace := by
  have hcn : ¬ c.filled slot = true := by simp [hc]
  cases hq : dispatch w h m with
  | pdbSolver slot2 file2 =>
    rw [hq] at hd
    simp only [pdbFileSlot, Option.some.injEq, Prod.mk.injEq] at hd
    obtain ⟨h1, h2⟩ := hd
    subst h1
    subst h2
    have hload := pdbLoad_bad ps slot2 file2 fs hbad
    simp only [stateSolve, hq, if_neg hcn, hload]
    refine ⟨by trivial, by trivial, ?_, ?_⟩
    · simp [FS.update]
    · simp
  | solver4x4Stm =>
    rw [hq] at hd
    simp [pdbFileSlot] at hd
  | solver4x4Mtm file2 =>
    rw [hq] at hd
    simp only [pdbFileSlot, Option.some.injEq, Prod.mk.injEq] at hd
    obtain ⟨h1, h2⟩ := hd
    subst h1
    subst h2
    have hload := pdbLoad_bad ps Slot.s4x4mtm file2 fs hbad
    simp only [stateSolve, hq, if_neg hcn, hload]
    refine ⟨by trivial, by trivial, ?_, ?_⟩
    · simp [FS.update]
    · simp
  | genericStm =>
    rw [hq] at hd
    simp [pdbFileSlot] at hd
  | todoPanic msg =>
    rw [hq] at hd
    simp [pdbFileSlot] at hd

/-- C4 (witness): both trigger cases on concrete keys.  The 3x2 STM key
with a corrupt cached file (bytes [9] failing the stand-in checksum of
ps0) is silently rebuilt: the call succeeds, uses the fresh table [1], and
overwrites the file with it; and the 2x2 STM key whose file cannot be read
at all (empty file system) is likewise built fresh, written, and the call
succeeds. -/
theorem C4_corrupt_pdb_regenerated_witness :
    ((stateSolve ps0 emptyCache corruptFS 3 2 .stm).outcome = .ok ∧
      (stateSolve ps0 emptyCache corruptFS 3 2 .stm).used = some [1] ∧
      (stateSolve ps0 emptyCache corruptFS 3 2 .stm).fs "3x2-stm.bin" =
        some [1] ∧
      Event.writeFile "3x2-stm.bin" [1] ∈
        (stateSolve ps0 emptyCache corruptFS 3 2 .stm).trace) ∧
    ((stateSolve ps0 emptyCache emptyFS 2 2 .stm).outcome = .ok ∧
      (stateSolve ps0 emptyCache emptyFS 2 2 .stm).used = some [1] ∧
      (stateSolve ps0 emptyCache emptyFS 2 2 .stm).fs "2x2-stm.bin" =
        some [1] ∧
      Event.writeFile "2x2-stm.bin" [1] ∈
        (stateSolve ps0 emptyCache emptyFS 2 2 .stm).trace) :=
  ⟨C4_corrupt_pdb_regenerated ps0 emptyCache corruptFS 3 2 .stm
      .s3x2stm "3x2-stm.bin" rfl rfl (Or.inr ⟨[9], rfl, rfl⟩),
    C4_corrupt_pdb_regenerated ps0 emptyCache emptyFS 2 2 .stm
      .s2x2stm "2x2-stm.bin" rfl rfl (Or.inl rfl)⟩

/-- C5 (counterexample): the claim says at most one solver instance is
ever constructed per normalized (configuration, metric) key during a
process; but each of two solve calls for the 5x5 STM key (which has no
cached slot) constructs its own fresh generic solver, so two solver
instances are constructed for the same key. -/
theorem C5_counterexample :
    countEv (Event.constructGeneric 5 5)
      (runAll ps0 [(5, 5, Metric.stm), (5, 5, Metric.stm)]
        emptyCache emptyFS).2.2 = 2 := rfl

/-- C5 (amended): transposed configurations dispatch to the same cached
solver slot under either metric, and each cached slot's solver is
constructed at most once during a process starting from the empty cache;
keys without a cached slot construct a fresh uncached generic solver on
every call. -/
theorem C5_transpose_shared_slot_cached_once :
    (∀ w h m, slotOf w h m = slotOf h w m) ∧
      ∀ (ps : PdbSpec) (reqs : List (Nat × Nat × Metric)) (s : Slot),
        countEv (Event.constructCached s)
          (runAll ps reqs emptyCache emptyFS).2.2 ≤ 1 :=
  ⟨slotOf_symm_aux,
    fun ps reqs s => (runAll_count ps s reqs emptyCache emptyFS).2⟩

/-- C6: for every input sequence S, metric M, and window length L >= 1,
the optimize loop terminates: each iteration either advances the cursor or
strictly shortens the sequence, so the fuel supplied by optimize (which
strictly exceeds the resulting iteration bound) is never exhausted
(granting the external library its contract, OptLaws). -/
theorem C6_optimize_terminates {α σ G : Type} [Group G]
    {ops : AlgOps α} {sops : SolverOps α σ} {eff : α → G} {metric : Metric}
    (hl : OptLaws ops sops eff metric) (S : α) (L : Nat) (h1 : 1 ≤ L) :
    optimize ops sops metric S L ≠ .outOfFuel := by
  obtain ⟨r, hr⟩ := optimize_ok hl S L h1
  rw [hr]
  simp

/-- C6 (witness): the concrete run terminates. -/
theorem C6_optimize_terminates_witness :
    optimize (bOps mszConst) bSops .stm [true, false, true] 2 ≠
      .outOfFuel :=
  C6_optimize_terminates (bLaws mszConst .stm) [true, false, true] 2
    (by decide)

/-- C7 (counterexample): the claim says optimize returns an error when a
windowed sub-sequence has no configuration small enough to apply it to;
but in a model where the first window [R, L] of [R, L, R] has no
applicable configuration, optimize succeeds (skipping every window by
advancing the cursor) instead of returning an error. -/
theorem C7_counterexample :
    (bOps mszNone).sliceMetric [true, false, true] .stm 0 2 =
        some [true, false] ∧
      (bOps mszNone).minApplicableSize [true, false] = none ∧
      optimize (bOps mszNone) bSops .stm [true, false, true] 2 =
        .ok [true, false, true] :=
  ⟨rfl, rfl, rfl⟩

/-- C7 (amended): optimize can only fail with a slicing error; a windowed
sub-sequence with no applicable configuration is skipped by advancing the
cursor, not an error, and under the library's slicing contract (in-range
slices never fail, OptLaws) optimize always returns a sequence. -/
theorem C7_optimize_only_slice_errors {α σ G : Type} [Group G]
    {ops : AlgOps α} {sops : SolverOps α σ} {eff : α → G} {metric : Metric}
    (hl : OptLaws ops sops eff metric) (S : α) (L : Nat) (h1 : 1 ≤ L) :
    ∃ r, optimize ops sops metric S L = .ok r :=
  optimize_ok hl S L h1

/-- C7 (witness): the amended claim applied to the model where no window
has an applicable configuration. -/
theorem C7_optimize_only_slice_errors_witness :
    ∃ r, optimize (bOps mszNone) bSops .stm [true, false, true] 2 =
      .ok r :=
  C7_optimize_only_slice_errors (bLaws mszNone .stm) [true, false, true] 2
    (by decide)

/-- C8 (counterexample): the claim says a solve call whose key is already
cached performs no I/O and does not touch the cache-directory tree; but
State::solve runs create_dir_all on the cache directory unconditionally,
so even the fully cached 3x2 STM call touches the cache-directory tree. -/
theorem C8_counterexample :
    (stateSolve ps0 (emptyCache.fill .s3x2stm) emptyFS 3 2 .stm).trace =
      [Event.createDirAll] := rfl

/-- C8 (amended): a solve call whose cached slot is already filled reads
no file, writes no file, constructs nothing, and leaves the cache and the
file system unchanged, but it still creates the cache-directory tree
(create_dir_all runs on every call, not only on first use). -/
theorem C8_cached_call_no_file_io (ps : PdbSpec) (c : Cache) (fs : FS)
    (w h : Nat) (m : Metric) (slot : Slot)
    (hslot : slotOf w h m = some slot) (hc : c.filled slot = true) :
    stateSolve ps c fs w h m = ⟨.ok, c, fs, [.createDirAll], none⟩ := by
  cases hq : dispatch w h m with
  | pdbSolver slot2 file =>
    rw [slotOf, hq] at hslot
    simp only [stratSlot, Option.some.injEq] at hslot
    subst hslot
    simp [stateSolve, hq, hc]
  | solver4x4Stm =>
    rw [slotOf, hq] at hslot
    simp only [stratSlot, Option.some.injEq] at hslot
    rw [← hslot] at hc
    simp [stateSolve, hq, hc]
  | solver4x4Mtm file =>
    rw [slotOf, hq] at hslot
    simp only [stratSlot, Option.some.injEq] at hslot
    rw [← hslot] at hc
    simp [stateSolve, hq, hc]
  | genericStm =>
    rw [slotOf, hq] at hslot
    simp [stratSlot] at hslot
  | todoPanic msg =>
    rw [slotOf, hq] at hslot
    simp [stratSlot] at hslot

/-- C8 (witness): the amended claim applied to a cached 3x2 STM call. -/
theorem C8_cached_call_no_file_io_witness :
    stateSolve ps0 (emptyCache.fill .s3x2stm) emptyFS 3 2 .stm =
      ⟨.ok, emptyCache.fill .s3x2stm, emptyFS, [.createDirAll], none⟩ :=
  C8_cached_call_no_file_io ps0 (emptyCache.fill .s3x2stm) emptyFS 3 2 .stm
    .s3x2stm rfl rfl

/-- C9 (counterexample): the claim says every CacheKey exercised by a
solve call leaves exactly one file for that key under solver/pdb; but the
4x4 STM key is exercised (its cached solver is constructed) while no file
is read or written and no 4x4-stm.bin exists afterwards. -/
theorem C9_counterexample :
    (stateSolve ps0 emptyCache emptyFS 4 4 .stm).fs "4x4-stm.bin" = none ∧
      (stateSolve ps0 emptyCache emptyFS 4 4 .stm).trace =
        [Event.createDirAll, Event.constructCached .s4x4stm] :=
  ⟨rfl, rfl⟩

/-- C9 (amended): for every CacheKey dispatched to a pdb-file-backed
solver (the solve! arms and 4x4 MTM), a first-use solve call leaves that
key's file present, named deterministically from the normalized
configuration and metric as WxH-metric.bin, and modifies no other file;
keys served by the non-persistent 4x4 STM solver or the generic fallback
persist nothing. -/
theorem C9_pdb_file_layout (ps : PdbSpec) (c : Cache) (fs : FS)
    (w h : Nat) (m : Metric) (slot : Slot) (file : String)
    (hd : pdbFileSlot (dispatch w h m) = some (slot, file))
    (hc : c.filled slot = false) :
    (∃ b, (stateSolve ps c fs w h m).fs file = some b) ∧
      file = pdbFileName w h m ∧
      ∀ g, g ≠ file → (stateSolve ps c fs w h m).fs g = fs g := by
  have hcn : ¬ c.filled slot = true := by simp [hc]
  have hname : file = pdbFileName w h m := by
    have hall := fileNameOk_all w h m
    rw [fileNameOkB, hd] at hall
    simp only at hall
    exact eq_of_beq hall
  refine ⟨?_, hname, ?_⟩
  all_goals
    cases hq : dispatch w h m with
    | pdbSolver slot2 file2 =>
      rw [hq] at hd
      simp only [pdbFileSlot, Option.some.injEq, Prod.mk.injEq] at hd
      obtain ⟨h1, h2⟩ := hd
      subst h1
      subst h2
      simp only [stateSolve, hq, if_neg hcn]
      first
      | exact (pdbLoad_fs_spec ps slot2 file2 fs).1
      | exact (pdbLoad_fs_spec ps slot2 file2 fs).2
    | solver4x4Stm =>
      rw [hq] at hd
      simp [pdbFileSlot] at hd
    | solver4x4Mtm file2 =>
      rw [hq] at hd
      simp only [pdbFileSlot, Option.some.injEq, Prod.mk.injEq] at hd
      obtain ⟨h1, h2⟩ := hd
      subst h1
      subst h2
      simp only [stateSolve, hq, if_neg hcn]
      first
      | exact (pdbLoad_fs_spec ps Slot.s4x4mtm file2 fs).1
      | exact (pdbLoad_fs_spec ps Slot.s4x4mtm file2 fs).2
    | genericStm =>
      rw [hq] at hd
      simp [pdbFileSlot] at hd
    | todoPanic msg =>
      rw [hq] at hd
      simp [pdbFileSlot] at hd

/-- C9 (witness): a first 2x3 STM solve writes 3x2-stm.bin (the file name
normalizes the transposed configuration), which is the name the naming
scheme prescribes. -/
theorem C9_pdb_file_layout_witness :
    (stateSolve ps0 emptyCache emptyFS 2 3 .stm).fs "3x2-stm.bin" =
        some [1] ∧
      "3x2-stm.bin" = pdbFileName 2 3 .stm :=
  ⟨rfl, (C9_pdb_file_layout ps0 emptyCache emptyFS 2 3 .stm .s3x2stm
    "3x2-stm.bin" rfl rfl).2.1⟩

/-- C10: every solve-command invocation requesting the MTM metric together
with a label other than row grids fails immediately, before any solver is
constructed or invoked (the returned error carries an empty side-effect
trace), with exactly the guard's error message. -/
theorem C10_mtm_label_guard (ps : PdbSpec) (c : Cache) (fs : FS)
    (w h : Nat) (label : LabelType) (hlabel : label ≠ .rowGrids) :
    runnerSolve ps c fs w h .mtm label =
      .errMsg "solving labels other than row grids in MTM is not supported"
        [] := by
  simp [runnerSolve, hlabel]

/-- C10 (witness): the guard applied to the fringe label on an 8x8 MTM
request. -/
theorem C10_mtm_label_guard_witness :
    runnerSolve ps0 emptyCache emptyFS 8 8 .mtm .fringe =
      .errMsg "solving labels other than row grids in MTM is not supported"
        [] :=
  C10_mtm_label_guard ps0 emptyCache emptyFS 8 8 .fringe (by decide)

end SlidyCli
